import Mathlib

/-!
# Verification of the vesta2cell converter

Shallow embedding of `vesta2cell.py`: a converter from VESTA structure
files to CASTEP cell files.  Numeric values that the Python code holds as
`float` are modelled exactly as rationals (`ℚ`); the Python builtins
`float`/`int`/`str` used to convert between tokens and numbers are kept
abstract as function parameters (`pf`, `pint`, `ns`), since their exact
behaviour is IEEE-754/decimal-printing detail that the verified properties
do not depend on.  Character classification is modelled for the ASCII
subset that structure files use.
-/

/-- Python `str.split()` with no argument: split on runs of whitespace,
dropping empty fields.  Auxiliary accumulator form (structural recursion). -/
def splitWSAux : List Char → List Char → List String
  | [], acc => if acc.isEmpty then [] else [String.mk acc.reverse]
  | c :: cs, acc =>
    if c.isWhitespace then
      if acc.isEmpty then splitWSAux cs [] else String.mk acc.reverse :: splitWSAux cs []
    else splitWSAux cs (c :: acc)

/-- Python `line.split()`. -/
def pySplit (s : String) : List String :=
  splitWSAux s.data []

/-- Python `line.strip()`: remove leading and trailing whitespace. -/
def pyStrip (s : String) : String :=
  String.mk (((s.data.dropWhile Char.isWhitespace).reverse.dropWhile Char.isWhitespace).reverse)

/-- Python `str.isupper()` (ASCII subset): at least one cased character,
and every cased character is uppercase.  Uncased characters (digits,
spaces, punctuation) are ignored. -/
def pyIsUpper (s : String) : Bool :=
  s.data.any (fun c => c.isAlpha) && s.data.all (fun c => !c.isAlpha || c.isUpper)

/-- The header test of `read_vesta` (src line 227):
`line.isupper() and not line[0].isnumeric()`.  Python's short-circuit
`and` never evaluates `line[0]` for the empty string (where `isupper()`
is already `False`), which `headD` reproduces. -/
def is_header (line : String) : Bool :=
  pyIsUpper line && !(line.data.headD ' ').isDigit

/-- One symmetry operation from a `.vesta` SYMOP block (class `symop`). -/
structure symop where
  vector : List ℚ
  matrix : List (List ℚ)
deriving DecidableEq

/-- `symop.apply`: full affine application, `temp[i] = Σ_j matrix[i][j]*v[j] + vector[i]`.
Out-of-range accesses of the stored lists are modelled by `getD` with the
0 default (well-formed 3×3 data never reaches the default). -/
def symop.apply (s : symop) (v : List ℚ) : List ℚ :=
  (List.range 3).map (fun i =>
    ((List.range 3).map (fun j => (s.matrix.getD i []).getD j 0 * v.getD j 0)).sum
      + s.vector.getD i 0)

/-- `symop.apply_mat`: matrix-only application (no translation). -/
def symop.apply_mat (s : symop) (v : List ℚ) : List ℚ :=
  (List.range 3).map (fun i =>
    ((List.range 3).map (fun j => (s.matrix.getD i []).getD j 0 * v.getD j 0)).sum)

/-- Decoded SYMOP block (class `vesta_symop`). -/
structure vesta_symop where
  symops : List symop
deriving DecidableEq

/-- `vesta_symop.parse`: per line, tokens `[0:3]` are the translation and
tokens `[3:6]`, `[6:9]`, `[9:12]` the three matrix rows.  `pf` models the
Python `float` builtin on a token. -/
def vesta_symop.parse (pf : String → ℚ) (data : List String) : vesta_symop :=
  ⟨data.map (fun line =>
    { vector := ((pySplit line).take 3).map pf
      matrix := [(((pySplit line).drop 3).take 3).map pf,
                 (((pySplit line).drop 6).take 3).map pf,
                 (((pySplit line).drop 9).take 3).map pf] })⟩

/-- Decoded CELLP block (class `vesta_cellp`). -/
structure vesta_cellp where
  params : List ℚ
  angles : List ℚ
deriving DecidableEq

/-- `vesta_cellp.parse`: from the first buffered line,
`params = tokens[0:3]`, `angles = tokens[3:]` (note: all remaining tokens,
not `tokens[3:6]`).  Python would raise on an empty buffer; `headD ""`
models the well-formed (non-empty) case. -/
def vesta_cellp.parse (pf : String → ℚ) (data : List String) : vesta_cellp :=
  { params := ((pySplit (data.headD "")).take 3).map pf
    angles := ((pySplit (data.headD "")).drop 3).map pf }

/-- Decoded STRUC block (class `vesta_struc`). -/
structure vesta_struc where
  atoms : List String
  positions : List (List ℚ)
  symops : List ℤ
deriving DecidableEq

/-- `vesta_struc.parse`: a line is an atom-data row when its first token
contains no `.` and the line's first character is not `0`; then
`tokens[1]` is the label, `tokens[4:7]` the position and `tokens[7]` the
symmetry count.  `pint` models the Python `int` builtin.  Missing tokens
(which would raise in Python) are modelled by `getD` defaults. -/
def vesta_struc.parse (pf : String → ℚ) (pint : String → ℤ) (data : List String) : vesta_struc :=
  data.foldl (fun st line =>
    if !((pySplit line).headD "").data.contains '.' && !(line.data.headD ' ' == '0') then
      { atoms := st.atoms ++ [(pySplit line).getD 1 ""]
        positions := st.positions ++ [(((pySplit line).drop 4).take 3).map pf]
        symops := st.symops ++ [pint ((pySplit line).getD 7 "")] }
    else st) ⟨[], [], []⟩

/-- Decoded VECTR block (class `vesta_vectr`). -/
structure vesta_vectr where
  vectors : List (List ℚ)
deriving DecidableEq

/-- `vesta_vectr.parse`: `for i in range(0, len(data)-2, 3)` take tokens
`[1:4]` of line `i`.  The index set is the multiples of 3 below
`len(data)-2`. -/
def vesta_vectr.parse (pf : String → ℚ) (data : List String) : vesta_vectr :=
  ⟨((List.range data.length).filter (fun i => i % 3 == 0 && i + 2 < data.length)).map
    (fun i => (((pySplit (data.getD i "")).drop 1).take 3).map pf)⟩

/-- The dictionary `vesta_objs` built by `read_vesta`: at most one decoded
record per recognized keyword. -/
structure VestaObjs where
  symop : Option vesta_symop := none
  cellp : Option vesta_cellp := none
  struc : Option vesta_struc := none
  vectr : Option vesta_vectr := none
deriving DecidableEq

/-- `vesta_objs[keyword] = vesta_block[keyword](data_block)` for the four
recognized keywords; any other keyword stores nothing. -/
def storeBlock (pf : String → ℚ) (pint : String → ℤ) (objs : VestaObjs)
    (keyword : String) (block : List String) : VestaObjs :=
  if keyword = "SYMOP" then { objs with symop := some (vesta_symop.parse pf block) }
  else if keyword = "CELLP" then { objs with cellp := some (vesta_cellp.parse pf block) }
  else if keyword = "STRUC" then { objs with struc := some (vesta_struc.parse pf pint block) }
  else if keyword = "VECTR" then { objs with vectr := some (vesta_vectr.parse pf block) }
  else objs

/-- One step of the `read_vesta` line loop.  State: current keyword,
accumulated `data_block`, and the decoded objects so far.  On a header
line the previous section is decoded (if recognized) and the buffer is
reset; otherwise the line is buffered. -/
def read_step (pf : String → ℚ) (pint : String → ℤ)
    (st : String × List String × VestaObjs) (line : String) :
    String × List String × VestaObjs :=
  if is_header line then (line, [], storeBlock pf pint st.2.2 st.1 st.2.1)
  else (st.1, st.2.1 ++ [line], st.2.2)

/-- `read_vesta`: strip every line, fold the section state machine over
the lines (initial keyword `""`), return the decoded objects.  Note: the
buffer accumulated after the last header is never decoded. -/
def read_vesta (pf : String → ℚ) (pint : String → ℤ) (lines : List String) : VestaObjs :=
  ((lines.map pyStrip).foldl (read_step pf pint) ("", [], {})).2.2

/-- Whether the dictionary returned by `read_vesta` holds a record for a
keyword. -/
def hasRecord (objs : VestaObjs) (keyword : String) : Bool :=
  if keyword = "SYMOP" then objs.symop.isSome
  else if keyword = "CELLP" then objs.cellp.isSome
  else if keyword = "STRUC" then objs.struc.isSome
  else if keyword = "VECTR" then objs.vectr.isSome
  else false

/-- `get_max_length(*arrays)`: length of the longest stringified element.
`ns` models the Python `str` builtin on a float. -/
def get_max_length (ns : ℚ → String) (arrays : List (List ℚ)) : Nat :=
  (arrays.flatten.map (fun elem => (ns elem).length)).foldl max 0

/-- `extend_str(string, length)`: `string + " "*(length-len(string))`.
A negative Python repetition count yields the empty string, exactly as
truncated `Nat` subtraction does: strings longer than `length` are
returned unchanged, never cut. -/
def extend_str (s : String) (length : Nat) : String :=
  s ++ String.mk (List.replicate (length - s.length) ' ')

/-- CASTEP `lattice_abc` block (class `castep_lattice_abc`). -/
structure castep_lattice_abc where
  params : List ℚ
  angles : List ℚ
deriving DecidableEq

/-- `castep_lattice_abc.__repr__`: the block delimiters around one row of
lengths and one row of angles, every field padded to the longest
stringified value across both rows and followed by one space. -/
def castep_lattice_abc.render (ns : ℚ → String) (self : castep_lattice_abc) : String :=
  "%block lattice_abc\n"
    ++ String.join (self.params.map (fun m =>
        extend_str (ns m) (get_max_length ns [self.params, self.angles]) ++ " ")) ++ "\n"
    ++ String.join (self.angles.map (fun a =>
        extend_str (ns a) (get_max_length ns [self.params, self.angles]) ++ " ")) ++ "\n"
    ++ "%endblock lattice_abc\n"

/-- CASTEP `positions_frac` block (class `castep_positions_frac`).
`vectors` is `None` until `apply_symops_vec` fills it. -/
structure castep_positions_frac where
  atoms : List String
  positions : List (List ℚ)
  vectors : Option (List (List ℚ)) := none
deriving DecidableEq

/-- Python truthiness of the `vectors` attribute: `None` and the empty
list are falsy. -/
def pyTruthy : Option (List (List ℚ)) → Bool
  | none => false
  | some l => !l.isEmpty

/-- `castep_positions_frac.__repr__`: one row per expanded atom — the
label through `extend_str(label, 3)`, then each position component padded
to the block-wide maximum width plus a trailing space, then (only when
`vectors` is truthy) the literal `spin= ` and the padded vector
components, then a newline.  The closing delimiter has no trailing
newline. -/
def castep_positions_frac.render (ns : ℚ → String) (self : castep_positions_frac) : String :=
  "%block positions_frac\n"
    ++ String.join ((List.range self.atoms.length).map (fun i =>
        extend_str (self.atoms.getD i "") 3
        ++ String.join ((self.positions.getD i []).map (fun p =>
            extend_str (ns p) (get_max_length ns self.positions) ++ " "))
        ++ (if pyTruthy self.vectors then
              "spin= " ++ String.join (((self.vectors.getD []).getD i []).map (fun v =>
                extend_str (ns v) (get_max_length ns (self.vectors.getD [])) ++ " "))
            else "")
        ++ "\n"))
    ++ "%endblock positions_frac"

/-- Single-pass wraparound of one component (src lines 204-208): add 1 to
a negative component, subtract 1 from one exceeding 1; a component in
`[0, 1]` is left unchanged. -/
def wrap1 (x : ℚ) : ℚ :=
  if x < 0 then 1 + x else if x > 1 then x - 1 else x

/-- Componentwise wraparound of a transformed position. -/
def wrap (p : List ℚ) : List ℚ :=
  p.map wrap1

/-- The inner `for j` loop of `apply_symops_pos` over a list of operation
indices: apply `symop.symops[j]` and wrap.  An index beyond the operation
list raises Python's `IndexError`, modelled as `Except.error j` carrying
the requested operation index. -/
def applyOpsJ (ops : List symop) (p : List ℚ) : List Nat → Except Nat (List (List ℚ))
  | [] => .ok []
  | j :: js =>
    match ops[j]? with
    | none => .error j
    | some op =>
      match applyOpsJ ops p js with
      | .error e => .error e
      | .ok rest => .ok (wrap (op.apply p) :: rest)

/-- The outer `for i` loop of `apply_symops_pos` over a list of atom
indices, emitting `(label, wrapped position)` pairs; a failing inner loop
aborts the whole expansion with the atom index and the requested
operation index. -/
def expandAtoms (ops : List symop) (struct : vesta_struc) :
    List Nat → Except (Nat × Nat) (List (String × List ℚ))
  | [] => .ok []
  | i :: ks =>
    match applyOpsJ ops (struct.positions.getD i []) (List.range (struct.symops.getD i 0).toNat) with
    | .error j => .error (i, j)
    | .ok ps =>
      match expandAtoms ops struct ks with
      | .error e => .error e
      | .ok rest => .ok (ps.map (fun p => (struct.atoms.getD i "", p)) ++ rest)

/-- `apply_symops_pos(struct, symop)`: expand every basis atom by its
first `symops[i]` operations, returning the parallel lists of labels and
wrapped positions (or the Python `IndexError` point). -/
def apply_symops_pos (struct : vesta_struc) (ops : vesta_symop) :
    Except (Nat × Nat) (List String × List (List ℚ)) :=
  match expandAtoms ops.symops struct (List.range struct.atoms.length) with
  | .error e => .error e
  | .ok l => .ok (l.map Prod.fst, l.map Prod.snd)

/-- The inner `for j` loop of `apply_symops_vec`: matrix-only application,
no wraparound. -/
def applyVecJ (ops : List symop) (v : List ℚ) : List Nat → Except Nat (List (List ℚ))
  | [] => .ok []
  | j :: js =>
    match ops[j]? with
    | none => .error j
    | some op =>
      match applyVecJ ops v js with
      | .error e => .error e
      | .ok rest => .ok (op.apply_mat v :: rest)

/-- The outer `for i` loop of `apply_symops_vec` over vector indices. -/
def expandVecs (ops : List symop) (struct : vesta_struc) (vecs : List (List ℚ)) :
    List Nat → Except (Nat × Nat) (List (List ℚ))
  | [] => .ok []
  | i :: ks =>
    match applyVecJ ops (vecs.getD i []) (List.range (struct.symops.getD i 0).toNat) with
    | .error j => .error (i, j)
    | .ok ps =>
      match expandVecs ops struct vecs ks with
      | .error e => .error e
      | .ok rest => .ok (ps ++ rest)

/-- `apply_symops_vec(vectors, struct, symop, atom_pos)`: the expanded
moment list that the Python code stores into `atom_pos.vectors`. -/
def apply_symops_vec (vectors : vesta_vectr) (struct : vesta_struc) (ops : vesta_symop) :
    Except (Nat × Nat) (List (List ℚ)) :=
  expandVecs ops.symops struct vectors.vectors (List.range vectors.vectors.length)

/-- `vesta_to_castep(vesta_objs, spin)`: build the lattice block from the
CELLP record, expand positions from STRUC and SYMOP, and only when
`spin == "noncollinear"` also expand the VECTR moments into the atom
block.  A missing dictionary key (Python `KeyError`) or an expansion
`IndexError` aborts the conversion (`none`). -/
def vesta_to_castep (objs : VestaObjs) (spin : String) :
    Option (castep_lattice_abc × castep_positions_frac) := do
  let cellp ← objs.cellp
  let struc ← objs.struc
  let sym ← objs.symop
  match apply_symops_pos struc sym with
  | .error _ => none
  | .ok (atoms, positions) =>
    if spin = "noncollinear" then do
      let vectr ← objs.vectr
      match apply_symops_vec vectr struc sym with
      | .error _ => none
      | .ok vs => some (⟨cellp.params, cellp.angles⟩, ⟨atoms, positions, some vs⟩)
    else
      some (⟨cellp.params, cellp.angles⟩, ⟨atoms, positions, none⟩)

/-- `write_castep(fname, castep_objs)`: the full text written to the
destination file — the rendering of each block followed by one newline.
The file is opened in mode `"w"`, so this string replaces any previous
content of the destination file. -/
def write_castep (ns : ℚ → String) (objs : castep_lattice_abc × castep_positions_frac) : String :=
  castep_lattice_abc.render ns objs.1 ++ "\n" ++ castep_positions_frac.render ns objs.2 ++ "\n"

/-- `convert(f_in, f_out, spin)`: decode, expand, format; the resulting
destination-file content (or `none` where Python raises). -/
def convert (pf : String → ℚ) (pint : String → ℤ) (ns : ℚ → String)
    (lines : List String) (spin : String) : Option String :=
  (vesta_to_castep (read_vesta pf pint lines) spin).map (write_castep ns)

/-- Concrete stand-in for `str` on floats used by closed witnesses. -/
def ns0 : ℚ → String := fun _ => "0"

/-- Concrete stand-in for `float` on tokens used by closed witnesses. -/
def pf0 : String → ℚ := fun _ => 0

/-- Concrete stand-in for `int` on tokens used by closed witnesses. -/
def pint0 : String → ℤ := fun _ => 0

/-- Concrete operation: zero matrix, zero translation. -/
def op_zero : symop := ⟨[0, 0, 0], [[0, 0, 0], [0, 0, 0], [0, 0, 0]]⟩

/-- Concrete operation: zero matrix, translation `(1, 1, 1)`. -/
def op_one : symop := ⟨[1, 1, 1], [[0, 0, 0], [0, 0, 0], [0, 0, 0]]⟩

/-- Concrete two-atom structure whose counts fit two operations. -/
def struct2 : vesta_struc := ⟨["A", "B"], [[0, 0, 0], [0, 0, 0]], [1, 2]⟩

/-- Concrete operation list of length 2. -/
def ops2 : vesta_symop := ⟨[op_zero, op_one]⟩

/-- Concrete structure requesting two operations when only one exists. -/
def structBad : vesta_struc := ⟨["A"], [[0, 0, 0]], [2]⟩

/-- Concrete operation list of length 1. -/
def ops1 : vesta_symop := ⟨[op_zero]⟩

/-- Concrete decoded document with CELLP, STRUC and SYMOP records. -/
def objs9 : VestaObjs :=
  { cellp := some ⟨[1], [1]⟩, struc := some ⟨["H"], [[0, 0, 0]], [1]⟩, symop := some ops1 }

/-- The lattice block `objs9` converts to. -/
def lat9 : castep_lattice_abc := ⟨[1], [1]⟩

/-- The atom block `objs9` converts to. -/
def ap9 : castep_positions_frac := ⟨["H"], [[0, 0, 0]], none⟩

/-! ## Helper lemmas -/

/-- A component in the open interval `(-1, 2)` wraps into `[0, 1]`. -/
theorem wrap1_mem_Icc {x : ℚ} (h1 : -1 < x) (h2 : x < 2) : 0 ≤ wrap1 x ∧ wrap1 x ≤ 1 := by
  unfold wrap1
  split_ifs with ha hb
  · constructor <;> linarith
  · constructor <;> linarith
  · constructor <;> linarith

/-- The single-pass wraparound is the identity on `[0, 1]`. -/
theorem wrap1_fix {x : ℚ} (h1 : 0 ≤ x) (h2 : x ≤ 1) : wrap1 x = x := by
  unfold wrap1
  rw [if_neg (by linarith), if_neg (by linarith)]

/-! ## Claim C1 -/

/-- Claim C1, counterexample: the component `1` lies in the open interval
`(-1, 2)`, yet the wraparound leaves it at `1`, which is not in `[0, 1)`;
the claimed codomain `[0, 1)` is therefore wrong at this input. -/
theorem c1_counterexample :
    (∀ x ∈ [(1 : ℚ)], -1 < x ∧ x < 2) ∧ ¬ (∀ x ∈ wrap [(1 : ℚ)], 0 ≤ x ∧ x < 1) := by
  constructor
  · intro x hx
    rw [List.mem_singleton] at hx
    subst hx
    norm_num
  · intro hcon
    have h1 : (1 : ℚ) ∈ wrap [(1 : ℚ)] := by
      norm_num [wrap, wrap1]
    exact absurd (hcon 1 h1).2 (by norm_num)

/-- Claim C1, amended: for positions with every component in the open
interval `(-1, 2)`, the wraparound of `apply_symops_pos` lands every
component in the closed interval `[0, 1]` (a component equal to exactly 1
is left at 1; all others land in `[0, 1)`), and it is idempotent:
wrapping twice equals wrapping once. -/
theorem c1_theorem (p : List ℚ) (h : ∀ x ∈ p, -1 < x ∧ x < 2) :
    (∀ x ∈ wrap p, 0 ≤ x ∧ x ≤ 1) ∧ wrap (wrap p) = wrap p := by
  constructor
  · intro x hx
    rw [wrap, List.mem_map] at hx
    obtain ⟨y, hy, rfl⟩ := hx
    exact wrap1_mem_Icc (h y hy).1 (h y hy).2
  · rw [wrap, wrap, List.map_map]
    apply List.map_congr_left
    intro x hx
    have hw := wrap1_mem_Icc (h x hx).1 (h x hx).2
    simpa using wrap1_fix hw.1 hw.2

/-- Witness for C1 at the concrete position `(-1/2, 3/2, 1/2)`. -/
theorem c1_witness :
    (∀ x ∈ wrap [(-1 : ℚ)/2, 3/2, 1/2], 0 ≤ x ∧ x ≤ 1) ∧
      wrap (wrap [(-1 : ℚ)/2, 3/2, 1/2]) = wrap [(-1 : ℚ)/2, 3/2, 1/2] :=
  c1_theorem _ (by
    intro x hx
    simp only [List.mem_cons, List.not_mem_nil, or_false] at hx
    rcases hx with rfl | rfl | rfl <;> norm_num)

/-! ## Claim C3 -/

/-- Claim C3 (confirmed): expanding the single basis atom at fractional
position `(-0.1, 0.0, 1.05)` with `symmetryCount = 1` under the identity
operation yields exactly one expanded atom at the wrapped position
`(0.9, 0.0, 0.05)`.  The float arithmetic of the source is modelled
exactly over `ℚ`. -/
theorem c3_theorem :
    apply_symops_pos ⟨["H"], [[-1/10, 0, 21/20]], [1]⟩
        ⟨[⟨[0, 0, 0], [[1, 0, 0], [0, 1, 0], [0, 0, 1]]⟩]⟩
      = Except.ok (["H"], [[9/10, 0, 1/20]]) := by
  norm_num [apply_symops_pos, expandAtoms, applyOpsJ, symop.apply, wrap, wrap1, List.range_succ]

/-! ## Claim C4 -/

/-- Claim C4, counterexample: the line `"AB 1"` contains a space and a
digit alongside uppercase letters, so by the claim it must not be a
header, yet `read_vesta`'s test accepts it (Python `isupper()` ignores
uncased characters). -/
theorem c4_counterexample :
    is_header "AB 1" = true ∧ ("AB 1".data.all Char.isUpper) = false := by
  constructor
  · decide
  · decide

/-- Claim C4, amended: a line is treated as a section header iff it
contains at least one alphabetic character, every alphabetic character in
it is uppercase (non-alphabetic characters such as digits and spaces are
ignored by the uppercase test), and its first character is not a digit. -/
theorem c4_theorem (s : String) :
    is_header s = true ↔
      ((∃ c ∈ s.data, c.isAlpha = true) ∧ (∀ c ∈ s.data, c.isAlpha = true → c.isUpper = true) ∧
        (s.data.headD ' ').isDigit = false) := by
  simp only [is_header, pyIsUpper, Bool.and_eq_true, List.any_eq_true, List.all_eq_true,
    Bool.or_eq_true, Bool.not_eq_true', Bool.not_eq_true]
  constructor
  · rintro ⟨⟨ha, hall⟩, hd⟩
    refine ⟨ha, fun c hc hca => ?_, hd⟩
    rcases hall c hc with h | h
    · rw [hca] at h
      cases h
    · exact h
  · rintro ⟨ha, hall, hd⟩
    refine ⟨⟨ha, fun c hc => ?_⟩, hd⟩
    by_cases hca : c.isAlpha = true
    · exact Or.inr (hall c hc hca)
    · exact Or.inl (Bool.not_eq_true _ ▸ hca)

/-! ## Claim C5 -/

/-- Claim C5, counterexample: a CELLP line with seven tokens decodes to a
four-entry angles list, because the source takes `tokens[3:]`, not
`tokens[3:6]`. -/
theorem c5_counterexample :
    (vesta_cellp.parse (fun _ => 0) ["1 2 3 4 5 6 7"]).angles.length = 4 := by
  decide

/-- Claim C5, amended: the CELLP decoder maps the first buffered line's
tokens `[0:3]` to the lattice lengths and all remaining tokens `[3:]` to
the angles, so the angles list has exactly three entries only when the
line carries exactly six tokens; with `n` tokens it has `n - 3` entries. -/
theorem c5_theorem (pf : String → ℚ) (line : String) (rest : List String) :
    (vesta_cellp.parse pf (line :: rest)).params = ((pySplit line).take 3).map pf ∧
      (vesta_cellp.parse pf (line :: rest)).angles = ((pySplit line).drop 3).map pf ∧
      (vesta_cellp.parse pf (line :: rest)).params.length = min 3 (pySplit line).length ∧
      (vesta_cellp.parse pf (line :: rest)).angles.length = (pySplit line).length - 3 := by
  refine ⟨rfl, rfl, ?_, ?_⟩ <;> simp [vesta_cellp.parse]

/-! ## Claim C6 -/

/-- Claim C6, counterexample: a four-character label is rendered by
`extend_str(label, 3)` unchanged — the field occupies four characters,
not the claimed fixed three; no truncation happens. -/
theorem c6_counterexample :
    extend_str "ABCD" 3 = "ABCD" ∧ (extend_str "ABCD" 3).length = 4 ∧
      castep_positions_frac.render ns0 ⟨["ABCD"], [[0]], none⟩ =
        "%block positions_frac\nABCD0 \n%endblock positions_frac" := by
  refine ⟨by decide, by decide, by decide⟩

/-- Claim C6, amended: each atom row begins with the label passed through
`extend_str(label, 3)`, which pads the label on the right with spaces to
a minimum width of 3 and never truncates: the label is always a prefix of
the field and the field occupies `max 3 (label length)` characters. -/
theorem c6_theorem (s : String) :
    (extend_str s 3).length = max 3 s.length ∧ s.data <+: (extend_str s 3).data := by
  constructor
  · have h1 : (String.mk (List.replicate (3 - s.length) ' ')).length = 3 - s.length := by
      rw [show (String.mk (List.replicate (3 - s.length) ' ')).length
            = (List.replicate (3 - s.length) ' ').length from rfl]
      exact List.length_replicate _ _
    simp only [extend_str, String.length_append, h1]
    omega
  · rw [show (extend_str s 3).data = s.data ++ List.replicate (3 - s.length) ' ' from rfl]
    exact List.prefix_append _ _

/-! ## Expansion lemmas for C2 and C8 -/

/-- When every requested operation index is in range, the inner loop
succeeds and produces one wrapped position per index, in order. -/
theorem applyOpsJ_ok (ops : List symop) (p : List ℚ) (js : List Nat)
    (h : ∀ j ∈ js, j < ops.length) :
    applyOpsJ ops p js = .ok (js.map (fun j => wrap ((ops.getD j ⟨[], []⟩).apply p))) := by
  induction js with
  | nil => rfl
  | cons j js ih =>
    have hj : j < ops.length := h j (List.mem_cons_self j js)
    have hget : ops[j]? = some (ops.getD j ⟨[], []⟩) := by
      simp [List.getD_eq_getElem?_getD, List.getElem?_eq_getElem hj]
    simp only [applyOpsJ, hget, ih (fun k hk => h k (List.mem_cons_of_mem j hk)), List.map_cons]

/-- The first requested operation index at or beyond the number of
operations aborts the inner loop with exactly that index. -/
theorem applyOpsJ_err (ops : List symop) (p : List ℚ) (js₁ : List Nat) (j : Nat) (js₂ : List Nat)
    (h1 : ∀ k ∈ js₁, k < ops.length) (hj : ops.length ≤ j) :
    applyOpsJ ops p (js₁ ++ j :: js₂) = .error j := by
  induction js₁ with
  | nil =>
    have hnone : ops[j]? = none := List.getElem?_eq_none hj
    simp [applyOpsJ, hnone]
  | cons k ks ih =>
    have hk : k < ops.length := h1 k (List.mem_cons_self k ks)
    have hget : ops[k]? = some ops[k] := List.getElem?_eq_getElem hk
    simp [applyOpsJ, hget, ih (fun m hm => h1 m (List.mem_cons_of_mem k hm))]

/-- `List.range n` splits at any `m < n` into the range below `m`, then
`m`, then a remainder. -/
theorem range_split (n m : Nat) (h : m < n) :
    ∃ rest : List Nat, List.range n = List.range m ++ m :: rest := by
  refine ⟨(List.range (n - (m + 1))).map (fun k => m + 1 + k), ?_⟩
  have hn : n = (m + 1) + (n - (m + 1)) := by omega
  rw [hn, List.range_add, List.range_succ]
  simp [List.append_assoc]

/-- When every atom's symmetry count is within range, the outer loop
succeeds and the emitted pairs follow the loop nesting: atoms in index
order, operation indices `0..count-1` within each atom. -/
theorem expandAtoms_ok (ops : List symop) (struct : vesta_struc) (ks : List Nat)
    (h : ∀ i ∈ ks, (struct.symops.getD i 0).toNat ≤ ops.length) :
    expandAtoms ops struct ks = .ok (ks.flatMap (fun i =>
      (List.range (struct.symops.getD i 0).toNat).map (fun j =>
        (struct.atoms.getD i "", wrap ((ops.getD j ⟨[], []⟩).apply (struct.positions.getD i [])))))) := by
  induction ks with
  | nil => rfl
  | cons i ks ih =>
    have hi := h i (List.mem_cons_self i ks)
    have hok := applyOpsJ_ok ops (struct.positions.getD i [])
      (List.range (struct.symops.getD i 0).toNat)
      (fun j hj => lt_of_lt_of_le (List.mem_range.mp hj) hi)
    simp only [expandAtoms, hok, ih (fun m hm => h m (List.mem_cons_of_mem i hm)),
      List.flatMap_cons, List.map_map, Function.comp_def]

/-- The first atom index whose symmetry count exceeds the number of
operations aborts the outer loop with that atom index and the first
out-of-range operation index (which is the number of operations). -/
theorem expandAtoms_err (ops : List symop) (struct : vesta_struc)
    (ks₁ : List Nat) (i : Nat) (ks₂ : List Nat)
    (h1 : ∀ k ∈ ks₁, (struct.symops.getD k 0).toNat ≤ ops.length)
    (h2 : ops.length < (struct.symops.getD i 0).toNat) :
    expandAtoms ops struct (ks₁ ++ i :: ks₂) = .error (i, ops.length) := by
  induction ks₁ with
  | nil =>
    obtain ⟨rest, hsplit⟩ := range_split (struct.symops.getD i 0).toNat ops.length h2
    have herr := applyOpsJ_err ops (struct.positions.getD i [])
      (List.range ops.length) ops.length rest (fun k hk => List.mem_range.mp hk) le_rfl
    simp only [List.nil_append, expandAtoms, hsplit, herr]
  | cons k ks ih =>
    have hk := h1 k (List.mem_cons_self k ks)
    have hok := applyOpsJ_ok ops (struct.positions.getD k [])
      (List.range (struct.symops.getD k 0).toNat)
      (fun j hj => lt_of_lt_of_le (List.mem_range.mp hj) hk)
    simp only [List.cons_append, List.append_eq, expandAtoms, hok,
      ih (fun m hm => h1 m (List.mem_cons_of_mem k hm))]

/-- Indexing a list with `getD` over the range of its length recovers a
plain map over the list. -/
theorem map_getD_range {α β : Type} (l : List α) (d : α) (f : α → β) :
    (List.range l.length).map (fun i => f (l.getD i d)) = l.map f := by
  induction l with
  | nil => rfl
  | cons a l ih =>
    rw [List.length_cons, List.range_succ_eq_map, List.map_cons, List.map_map]
    simp only [List.getD_cons_zero]
    congr 1

/-! ## Claim C2 -/

/-- Claim C2 (confirmed): for a decoded structure with one symmetry count
per atom, each at most the number of operations, `apply_symops_pos`
succeeds and emits exactly `Σ symmetryCount` expanded atoms, ordered by
the loop nesting — outer loop over basis atoms in declaration order,
inner loop over operation indices `0..symmetryCount-1`. -/
theorem c2_theorem (struct : vesta_struc) (ops : vesta_symop)
    (hlen : struct.symops.length = struct.atoms.length)
    (hc : ∀ c ∈ struct.symops, c.toNat ≤ ops.symops.length) :
    ∃ out, apply_symops_pos struct ops = Except.ok out ∧
      out.1 = (List.range struct.atoms.length).flatMap (fun i =>
        (List.range (struct.symops.getD i 0).toNat).map (fun _ => struct.atoms.getD i "")) ∧
      out.2 = (List.range struct.atoms.length).flatMap (fun i =>
        (List.range (struct.symops.getD i 0).toNat).map (fun j =>
          wrap ((ops.symops.getD j ⟨[], []⟩).apply (struct.positions.getD i [])))) ∧
      out.1.length = (struct.symops.map Int.toNat).sum ∧
      out.2.length = (struct.symops.map Int.toNat).sum := by
  have hall : ∀ i, (struct.symops.getD i 0).toNat ≤ ops.symops.length := by
    intro i
    by_cases hi : i < struct.symops.length
    · rw [List.getD_eq_getElem?_getD, List.getElem?_eq_getElem hi]
      exact hc _ (List.getElem_mem hi)
    · rw [List.getD_eq_getElem?_getD, List.getElem?_eq_none (le_of_not_lt hi)]
      simp
  have hexp := expandAtoms_ok ops.symops struct (List.range struct.atoms.length)
    (fun i _ => hall i)
  have hpos : apply_symops_pos struct ops = Except.ok
      ((((List.range struct.atoms.length).flatMap (fun i =>
          (List.range (struct.symops.getD i 0).toNat).map (fun j =>
            (struct.atoms.getD i "",
              wrap ((ops.symops.getD j ⟨[], []⟩).apply (struct.positions.getD i [])))))).map Prod.fst),
       (((List.range struct.atoms.length).flatMap (fun i =>
          (List.range (struct.symops.getD i 0).toNat).map (fun j =>
            (struct.atoms.getD i "",
              wrap ((ops.symops.getD j ⟨[], []⟩).apply (struct.positions.getD i [])))))).map Prod.snd)) := by
    unfold apply_symops_pos
    rw [hexp]
  refine ⟨_, hpos, ?_, ?_, ?_, ?_⟩
  · simp only [List.map_flatMap, List.map_map, Function.comp_def]
  · simp only [List.map_flatMap, List.map_map, Function.comp_def]
  · rw [List.length_map, List.length_flatMap]
    simp only [Function.comp_def, List.length_map, List.length_range]
    rw [← hlen, map_getD_range struct.symops 0 Int.toNat]
  · rw [List.length_map, List.length_flatMap]
    simp only [Function.comp_def, List.length_map, List.length_range]
    rw [← hlen, map_getD_range struct.symops 0 Int.toNat]

/-- Witness for C2: a two-atom structure with counts 1 and 2 under two
operations expands to 1 + 2 atoms in loop order. -/
theorem c2_witness :
    ∃ out, apply_symops_pos struct2 ops2 = Except.ok out ∧
      out.1 = (List.range struct2.atoms.length).flatMap (fun i =>
        (List.range (struct2.symops.getD i 0).toNat).map (fun _ => struct2.atoms.getD i "")) ∧
      out.2 = (List.range struct2.atoms.length).flatMap (fun i =>
        (List.range (struct2.symops.getD i 0).toNat).map (fun j =>
          wrap ((ops2.symops.getD j ⟨[], []⟩).apply (struct2.positions.getD i [])))) ∧
      out.1.length = (struct2.symops.map Int.toNat).sum ∧
      out.2.length = (struct2.symops.map Int.toNat).sum :=
  c2_theorem struct2 ops2 (by decide) (by decide)

/-! ## Claim C8 -/

/-- Claim C8 (confirmed): when the first atom (index `i`) declares a
symmetry count exceeding the number of parsed operations, expansion
aborts with an `IndexError`-equivalent carrying that atom index and the
requested (first out-of-range) operation index; conversely, when every
atom's count is at most the number of operations, no such error is
raised. -/
theorem c8_theorem (struct : vesta_struc) (ops : vesta_symop) :
    (∀ i, i < struct.atoms.length →
      (∀ k, k < i → (struct.symops.getD k 0).toNat ≤ ops.symops.length) →
      ops.symops.length < (struct.symops.getD i 0).toNat →
      apply_symops_pos struct ops = Except.error (i, ops.symops.length)) ∧
    ((∀ i, i < struct.atoms.length → (struct.symops.getD i 0).toNat ≤ ops.symops.length) →
      ∃ out, apply_symops_pos struct ops = Except.ok out) := by
  constructor
  · intro i hi hk hbig
    obtain ⟨rest, hsplit⟩ := range_split struct.atoms.length i hi
    have herr := expandAtoms_err ops.symops struct (List.range i) i rest
      (fun k hkm => hk k (List.mem_range.mp hkm)) hbig
    unfold apply_symops_pos
    rw [hsplit, herr]
  · intro hall
    have hexp := expandAtoms_ok ops.symops struct (List.range struct.atoms.length)
      (fun i him => hall i (List.mem_range.mp him))
    exact ⟨_, by unfold apply_symops_pos; rw [hexp]⟩

/-- Witness for C8: a count of 2 against a single operation aborts at
atom 0, operation index 1; and a structure whose counts fit succeeds. -/
theorem c8_witness :
    apply_symops_pos structBad ops1 = Except.error (0, 1) ∧
      ∃ out, apply_symops_pos struct2 ops2 = Except.ok out := by
  constructor
  · exact (c8_theorem structBad ops1).1 0 (by decide)
      (fun k hk => absurd hk (Nat.not_lt_zero k)) (by decide)
  · refine (c8_theorem struct2 ops2).2 ?_
    intro i hi
    have h2 : i < 2 := hi
    interval_cases i <;> decide

/-! ## Claim C7 -/

/-- Claim C7, counterexample: on a concrete conversion the written file
ends right after the atom block's closing delimiter and its terminating
newline — there is no blank line after the atom block (no two consecutive
newlines at the end), while the lattice block is followed by one. -/
theorem c7_counterexample :
    write_castep ns0 (⟨[1], [2]⟩, ⟨["H"], [[0]], none⟩) =
      "%block lattice_abc\n0 \n0 \n%endblock lattice_abc\n\n%block positions_frac\nH  0 \n%endblock positions_frac\n"
    ∧ ¬ (['\n', '\n'] <:+ (write_castep ns0 (⟨[1], [2]⟩, ⟨["H"], [[0]], none⟩)).data) := by
  constructor
  · decide
  · decide

/-- Claim C7, amended: the written file is exactly the rendered lattice
block, a blank line, the rendered atom block, and a single terminating
newline, in that order — the lattice block is followed by a blank line
but the atom block only by the newline ending its delimiter line; the
string is the file's whole content, replacing whatever was there. -/
theorem c7_theorem (ns : ℚ → String) (lat : castep_lattice_abc) (ap : castep_positions_frac) :
    ∃ preL preA,
      write_castep ns (lat, ap) =
        preL ++ "%endblock lattice_abc\n" ++ "\n" ++ preA ++ "%endblock positions_frac" ++ "\n" := by
  refine ⟨"%block lattice_abc\n"
      ++ String.join (lat.params.map (fun m =>
          extend_str (ns m) (get_max_length ns [lat.params, lat.angles]) ++ " ")) ++ "\n"
      ++ String.join (lat.angles.map (fun a =>
          extend_str (ns a) (get_max_length ns [lat.params, lat.angles]) ++ " ")) ++ "\n",
    "%block positions_frac\n"
      ++ String.join ((List.range ap.atoms.length).map (fun i =>
          extend_str (ap.atoms.getD i "") 3
          ++ String.join ((ap.positions.getD i []).map (fun p =>
              extend_str (ns p) (get_max_length ns ap.positions) ++ " "))
          ++ (if pyTruthy ap.vectors then
                "spin= " ++ String.join (((ap.vectors.getD []).getD i []).map (fun v =>
                  extend_str (ns v) (get_max_length ns (ap.vectors.getD [])) ++ " "))
              else "")
          ++ "\n")), ?_⟩
  simp only [write_castep, castep_lattice_abc.render, castep_positions_frac.render,
    String.append_assoc]

/-! ## Claim C9 -/

/-- `String.append` concatenates the character lists. -/
theorem sdata_append (s t : String) : (s ++ t).data = s.data ++ t.data := rfl

/-- A character absent from the seed and from every listed string is
absent from their left fold by append. -/
theorem notMem_foldl_append {c : Char} (l : List String) (init : String)
    (hi : c ∉ init.data) (h : ∀ r ∈ l, c ∉ r.data) :
    c ∉ (l.foldl (fun r s => r ++ s) init).data := by
  induction l generalizing init with
  | nil => exact hi
  | cons a l ih =>
    refine ih (init ++ a) ?_ (fun r hr => h r (List.mem_cons_of_mem a hr))
    rw [sdata_append, List.mem_append]
    rintro (hl | hr)
    · exact hi hl
    · exact h a (List.mem_cons_self a l) hr

/-- A character absent from every joined string is absent from the join. -/
theorem notMem_join {c : Char} (l : List String) (h : ∀ r ∈ l, c ∉ r.data) :
    c ∉ (String.join l).data :=
  notMem_foldl_append l "" (by simp) h

/-- `extend_str` adds only spaces. -/
theorem notMem_extend_str {c : Char} (s : String) (n : Nat) (hc : c ≠ ' ') (h : c ∉ s.data) :
    c ∉ (extend_str s n).data := by
  rw [extend_str, sdata_append, List.mem_append]
  rintro (hl | hr)
  · exact h hl
  · rw [show (String.mk (List.replicate (n - s.length) ' ')).data
        = List.replicate (n - s.length) ' ' from rfl] at hr
    exact hc (List.eq_of_mem_replicate hr)

/-- The spin mode is consulted only through the test
`spin == "noncollinear"`, so `"collinear"` and `"nospin"` convert
identically. -/
theorem vtc_collinear_eq (objs : VestaObjs) :
    vesta_to_castep objs "collinear" = vesta_to_castep objs "nospin" := by
  unfold vesta_to_castep
  cases objs.cellp with
  | none => rfl
  | some cellp =>
    cases objs.struc with
    | none => rfl
    | some struc =>
      cases objs.symop with
      | none => rfl
      | some sym =>
        cases apply_symops_pos struc sym with
        | error e => rfl
        | ok v => simp

/-- An atom block whose `vectors` attribute is `None` renders without the
character `=` (hence without any `spin=` token), provided neither labels
nor stringified numbers contain it. -/
theorem render_no_eq_char (ns : ℚ → String) (ap : castep_positions_frac)
    (hv : ap.vectors = none)
    (hns : ∀ q : ℚ, '=' ∉ (ns q).data)
    (hlab : ∀ a ∈ ap.atoms, '=' ∉ a.data) :
    '=' ∉ (castep_positions_frac.render ns ap).data := by
  have hlab' : ∀ i, '=' ∉ (ap.atoms.getD i "").data := by
    intro i
    rw [List.getD_eq_getElem?_getD]
    cases h : ap.atoms[i]? with
    | none => simp
    | some a => exact hlab a (List.getElem?_mem h)
  unfold castep_positions_frac.render
  rw [hv]
  simp only [pyTruthy, Bool.false_eq_true, if_false, sdata_append, List.mem_append, not_or]
  refine ⟨⟨by decide, ?_⟩, by decide⟩
  apply notMem_join
  intro r hr
  rw [List.mem_map] at hr
  obtain ⟨i, _hi, rfl⟩ := hr
  simp only [sdata_append, List.mem_append, not_or]
  refine ⟨⟨⟨?_, ?_⟩, by simp⟩, by decide⟩
  · exact notMem_extend_str _ _ (by decide) (hlab' i)
  · apply notMem_join
    intro r hr
    rw [List.mem_map] at hr
    obtain ⟨p, _hp, rfl⟩ := hr
    simp only [sdata_append, List.mem_append, not_or]
    exact ⟨notMem_extend_str _ _ (by decide) (hns p), by decide⟩

/-- Claim C9 (confirmed): a conversion run in spin mode `"collinear"`
produces exactly the output of `"nospin"`: the same castep objects, with
no moment expansion (the atom block's `vectors` stays `None`) and no
`spin=` token anywhere in the rendered atom block (no `=` character at
all, given that labels and stringified numbers carry none). -/
theorem c9_theorem (objs : VestaObjs) (ns : ℚ → String)
    (lat : castep_lattice_abc) (ap : castep_positions_frac)
    (h : vesta_to_castep objs "collinear" = some (lat, ap))
    (hns : ∀ q : ℚ, '=' ∉ (ns q).data)
    (hlab : ∀ a ∈ ap.atoms, '=' ∉ a.data) :
    vesta_to_castep objs "nospin" = vesta_to_castep objs "collinear" ∧
      ap.vectors = none ∧ '=' ∉ (castep_positions_frac.render ns ap).data := by
  have hvec : ap.vectors = none := by
    unfold vesta_to_castep at h
    cases hc : objs.cellp with
    | none => rw [hc] at h; simp at h
    | some cellp =>
      rw [hc] at h
      cases hs : objs.struc with
      | none => rw [hs] at h; simp at h
      | some struc =>
        rw [hs] at h
        cases ho : objs.symop with
        | none => rw [ho] at h; simp at h
        | some sym =>
          rw [ho] at h
          cases hap : apply_symops_pos struc sym with
          | error e => simp [hap] at h
          | ok v =>
            simp [hap] at h
            rw [← h.2]
  exact ⟨(vtc_collinear_eq objs).symm, hvec, render_no_eq_char ns ap hvec hns hlab⟩

/-- Witness for C9 on a concrete decoded document. -/
theorem c9_witness :
    vesta_to_castep objs9 "nospin" = vesta_to_castep objs9 "collinear" ∧
      ap9.vectors = none ∧ '=' ∉ (castep_positions_frac.render ns0 ap9).data :=
  c9_theorem objs9 ns0 lat9 ap9
    (by
      norm_num [vesta_to_castep, objs9, lat9, ap9, apply_symops_pos, expandAtoms, applyOpsJ,
        symop.apply, wrap, wrap1, op_zero, ops1, List.range_succ]
      exact fun hcon => absurd hcon (by decide))
    (fun q => by
      rw [show ns0 q = "0" from rfl]
      decide)
    (by decide)

/-! ## Claim C10 -/

/-- Folding the line loop over lines that are not headers never changes
the decoded objects (only the buffer grows). -/
theorem foldl_no_header (pf : String → ℚ) (pint : String → ℤ) (tail : List String)
    (h : ∀ l ∈ tail, is_header l = false) (st : String × List String × VestaObjs) :
    (tail.foldl (read_step pf pint) st).2.2 = st.2.2 := by
  induction tail generalizing st with
  | nil => rfl
  | cons a t ih =>
    rw [List.foldl_cons, ih (fun l hl => h l (List.mem_cons_of_mem a hl))]
    simp [read_step, h a (List.mem_cons_self a t)]

/-- Claim C10, amended: when a recognized header `K` is the last header
of the file, the data lines after it are never decoded — the decoder's
result is the same as if they were absent — and the returned mapping
holds no record for `K` provided no earlier completed section already
stored one under the same keyword (a duplicated keyword keeps its
earlier record). -/
theorem c10_theorem (pf : String → ℚ) (pint : String → ℤ) (pre tail : List String) (K : String)
    (_hrec : pyStrip K ∈ (["SYMOP", "CELLP", "STRUC", "VECTR"] : List String))
    (htail : ∀ l ∈ tail, is_header (pyStrip l) = false) :
    read_vesta pf pint (pre ++ K :: tail) = read_vesta pf pint (pre ++ [K]) ∧
      (hasRecord (read_vesta pf pint (pre ++ [K])) (pyStrip K) = false →
        hasRecord (read_vesta pf pint (pre ++ K :: tail)) (pyStrip K) = false) := by
  have heq : read_vesta pf pint (pre ++ K :: tail) = read_vesta pf pint (pre ++ [K]) := by
    unfold read_vesta
    rw [List.map_append, List.map_append, List.foldl_append, List.foldl_append]
    rw [show (K :: tail).map pyStrip = pyStrip K :: tail.map pyStrip from rfl]
    rw [List.foldl_cons]
    rw [foldl_no_header pf pint (tail.map pyStrip) (by
      intro l hl
      rw [List.mem_map] at hl
      obtain ⟨x, hx, rfl⟩ := hl
      exact htail x hx) _]
    rw [show ([K] : List String).map pyStrip = [pyStrip K] from rfl, List.foldl_cons,
      List.foldl_nil]
  exact ⟨heq, fun hrec2 => by rw [heq]; exact hrec2⟩

/-- Claim C10, counterexample: a document whose final section repeats the
recognized keyword `CELLP` (final section not followed by any header)
still yields a mapping that holds a `CELLP` record — decoded from the
earlier section of the same name — so "the returned mapping contains no
record for it" fails as a universal statement. -/
theorem c10_counterexample :
    is_header (pyStrip "CELLP") = true ∧
      pyStrip "CELLP" ∈ (["SYMOP", "CELLP", "STRUC", "VECTR"] : List String) ∧
      (∀ l ∈ (["9 9 9 9 9 9"] : List String), is_header (pyStrip l) = false) ∧
      hasRecord (read_vesta pf0 pint0 ["CELLP", "1 2 3 4 5 6", "CELLP", "9 9 9 9 9 9"]) "CELLP"
        = true := by
  refine ⟨by decide, by decide, by decide, by decide⟩

/-- Witness for C10: a file ending in a `CELLP` header plus one data line
decodes exactly as if the data line were absent, leaving no `CELLP`
record. -/
theorem c10_witness :
    read_vesta pf0 pint0 ([] ++ "CELLP" :: ["1 2 3"]) = read_vesta pf0 pint0 ([] ++ ["CELLP"]) ∧
      (hasRecord (read_vesta pf0 pint0 ([] ++ ["CELLP"])) (pyStrip "CELLP") = false →
        hasRecord (read_vesta pf0 pint0 ([] ++ "CELLP" :: ["1 2 3"])) (pyStrip "CELLP") = false) :=
  c10_theorem pf0 pint0 [] ["1 2 3"] "CELLP" (by decide) (by decide)
